import Mathlib

/-!
Verification of the greedy MME lineup-selection engine in
`src/mme_picker/core.py`.

Python floats are modelled as exact rationals (`ℚ`), player ids as
`String`, Python dicts keyed by player id as functions `String → ℕ`
(for the mutable per-player count map, read with `.get(pid, 0)`) or as
association lists (for maps that are iterated over), and the global
`random` PRNG as an explicit integer state threaded through the
computation.  Fallible behaviour is modelled by total functions that
return the value the Python code returns on every path (the functions
embedded here contain no `raise`).
-/

namespace MMEPicker

/-- `min(values)` over a non-empty Python list (0 for the empty list,
which the source never passes). -/
def listMin : List ℚ → ℚ
  | [] => 0
  | v :: vs => vs.foldl min v

/-- `max(values)` over a non-empty Python list (0 for the empty list,
which the source never passes). -/
def listMax : List ℚ → ℚ
  | [] => 0
  | v :: vs => vs.foldl max v

/-- `normalize` from `core.py` lines 185–192: min–max scaling, with the
degenerate guard `hi <= lo + 1e-12` returning all zeros. -/
def normalize (values : List ℚ) : List ℚ :=
  if values = [] then []
  else
    let lo := listMin values
    let hi := listMax values
    if hi ≤ lo + 1 / 10 ^ 12 then values.map fun _ => 0
    else values.map fun v => (v - lo) / (hi - lo)

/-- One `counts[pid] += 1` step on a `Counter` modelled as an
association list in insertion order (`compute_pool_usage`, line 204). -/
def bumpAssoc : List (String × ℕ) → String → List (String × ℕ)
  | [], pid => [(pid, 1)]
  | (q, c) :: rest, pid =>
    if q = pid then (q, c + 1) :: rest else (q, c) :: bumpAssoc rest pid

/-- `compute_pool_usage` from `core.py` lines 195–205.  A row is the list
of its roster cells after `extract_player_id`; the blank id `""` is
skipped (`if pid:`).  Returns the dict `{pid: cnt / total}` in counter
insertion order; the empty pool returns the empty dict. -/
def computePoolUsage (rows : List (List String)) : List (String × ℚ) :=
  let total := rows.length
  if total = 0 then []
  else
    let counts := rows.foldl
      (fun cs row => row.foldl
        (fun cs2 pid => if pid ≠ "" then bumpAssoc cs2 pid else cs2) cs) []
    counts.map fun e => (e.1, (e.2 : ℚ) / (total : ℚ))

/-- `usage_map.get(pid, 0.0)`: dictionary lookup with default 0. -/
def usageGet (m : List (String × ℚ)) (pid : String) : ℚ :=
  ((m.find? fun e => e.1 == pid).map fun e => e.2).getD 0

/-- `counts.get(pid, 0)` on the intermediate `Counter`. -/
def cntGet (m : List (String × ℕ)) (pid : String) : ℕ :=
  ((m.find? fun e => e.1 == pid).map fun e => e.2).getD 0

/-- The per-lineup scoring record built by `make_lineup_records`
(`LineupRecord` in `core.py`, lines 218–227); the helper-computed
`features` contribute `correlation_score` and `extra_score`. -/
structure LineupRecord where
  idx : ℕ
  salary : ℤ
  playersId : List String
  projSum : ℚ
  uniqLogsum : ℚ
  chalkSum : ℚ
  corrScore : ℚ
  extraScore : ℚ
deriving DecidableEq, Inhabited

/-- `ScoredLineup` (`core.py` lines 230–232): a record plus its
composite score. -/
structure ScoredLineup extends LineupRecord where
  score : ℚ
deriving DecidableEq

/-- `ScoreWeights` from `picker_helpers.base`. -/
structure ScoreWeights where
  projection : ℚ
  correlation : ℚ
  uniqueness : ℚ
  chalk : ℚ

/-- `a ⊆ b` as lists of player ids (used to model `frozenset`
equality). -/
def setSubsetb (a b : List String) : Bool :=
  a.all fun x => b.contains x

/-- Equality of the player-id sets underlying two id lists: models
`frozenset(a) == frozenset(b)`. -/
def setEqb (a b : List String) : Bool :=
  setSubsetb a b && setSubsetb b a

/-- `frozenset(lineup.players_id) in seen_sets`, with the set of seen
frozensets modelled as the list of id lists added so far. -/
def seenContains (seen : List (List String)) (l : List String) : Bool :=
  seen.any fun m => setEqb m l

/-- `passes_caps` from `core.py` lines 392–412: exposure cap on every
player, exact-duplicate guard, and the pairwise-overlap guard that is
skipped when `max_repeat` reaches the roster size. -/
def passesCaps (lineup : LineupRecord) (selected : List ScoredLineup)
    (counts : String → ℕ) (capCount : ℤ) (maxRepeat : ℤ)
    (seenSets : List (List String)) : Bool :=
  (lineup.playersId.all fun pid => decide ((counts pid : ℤ) + 1 ≤ capCount)) &&
  !(seenContains seenSets lineup.playersId) &&
  (if maxRepeat < (lineup.playersId.length : ℤ) then
    selected.all fun chosen =>
      decide ((chosen.playersId.countP
        (fun pid => lineup.playersId.contains pid) : ℤ) ≤ maxRepeat)
  else true)

/-- The mutable selection state of `greedy_select` (`core.py` lines
456–462): selected lineups, per-player counts, seen player-id sets, the
current overlap threshold, and the relaxation/pointer/stall counters. -/
structure SelState where
  selected : List ScoredLineup
  counts : String → ℕ
  seen : List (List String)
  maxRepeat : ℤ
  relaxations : ℕ
  pointer : ℕ
  stalled : ℕ

/-- The quantities of `greedy_select` that are fixed for the whole
selection loop (`core.py` lines 429–454). -/
structure LoopCfg where
  records : List LineupRecord
  lookup : ℕ → ℚ
  order : List ℕ
  nTarget : ℕ
  capCount : ℤ
  maxRepeatLimit : ℤ
  breadthPenalty : ℚ
  window : ℕ
  stalledThreshold : ℤ

/-- `records[idx]` (always in range in the source: `order` lists exactly
the indices of `records`). -/
def recAt (records : List LineupRecord) (i : ℕ) : LineupRecord :=
  records.getD i default

/-- One candidate of the best-in-window scan (`core.py` lines 468–479):
skip the candidate unless it passes the hard caps, otherwise score it
with the quadratic near-cap breadth penalty and keep it when it beats
the best so far strictly. -/
def pickStep (cfg : LoopCfg) (st : SelState) (best : Option (ℕ × ℚ))
    (i : ℕ) : Option (ℕ × ℚ) :=
  let r := recAt cfg.records i
  if passesCaps r st.selected st.counts cfg.capCount st.maxRepeat st.seen then
    let penalty := r.playersId.foldl
      (fun acc pid =>
        acc + ((st.counts pid : ℚ) / (cfg.capCount : ℚ)) *
          ((st.counts pid : ℚ) / (cfg.capCount : ℚ))) 0
    let score := cfg.lookup i - cfg.breadthPenalty * penalty
    match best with
    | none => some (i, score)
    | some (bi, bs) => if bs < score then some (i, score) else some (bi, bs)
  else best

/-- The best passing candidate in the window `order[pointer :
pointer + window]`, with its penalised score; `none` when no candidate
passes (`best_idx is None`). -/
def pickBest (cfg : LoopCfg) (st : SelState) : Option (ℕ × ℚ) :=
  ((cfg.order.drop st.pointer).take cfg.window).foldl (pickStep cfg st) none

/-- `counts[pid] = counts.get(pid, 0) + 1`. -/
def bumpCounts (c : String → ℕ) (pid : String) : String → ℕ :=
  fun x => if x = pid then c x + 1 else c x

/-- The accept branch of the loop (`core.py` lines 480–486): append the
chosen lineup with its penalised score, remember its player set,
increment every player's count (once per roster slot) and reset the
stall counter. -/
def applySelect (cfg : LoopCfg) (st : SelState) (i : ℕ) (s : ℚ) : SelState :=
  let r := recAt cfg.records i
  { st with
    selected := st.selected ++ [{ toLineupRecord := r, score := s }]
    seen := st.seen ++ [r.playersId]
    counts := r.playersId.foldl bumpCounts st.counts
    stalled := 0 }

/-- The stall branch of the loop (`core.py` lines 489–496): bump the
stall counter; relax the overlap threshold and retry the same window
when the (positive) stall threshold is reached and the limit allows,
otherwise advance the pointer by the window size. -/
def stallUpdate (cfg : LoopCfg) (st : SelState) : SelState :=
  let stalled1 := st.stalled + 1
  if cfg.stalledThreshold > 0 ∧ (stalled1 : ℤ) ≥ cfg.stalledThreshold ∧
      st.maxRepeat < cfg.maxRepeatLimit then
    { st with
      stalled := 0
      maxRepeat := st.maxRepeat + 1
      relaxations := st.relaxations + 1 }
  else
    { st with
      stalled := stalled1
      pointer := st.pointer + cfg.window }

/-- Termination measure for the selection loop: every iteration either
selects a lineup, relaxes the overlap threshold, or advances the
pointer, and no iteration undoes any of the three. -/
def loopMeasure (cfg : LoopCfg) (st : SelState) : ℕ :=
  (cfg.nTarget - st.selected.length) +
    (cfg.maxRepeatLimit - st.maxRepeat).toNat +
    (cfg.order.length - st.pointer)

theorem applySelect_selected_length (cfg : LoopCfg) (st : SelState) (i : ℕ)
    (s : ℚ) : (applySelect cfg st i s).selected.length = st.selected.length + 1 := by
  simp [applySelect]

theorem applySelect_pointer (cfg : LoopCfg) (st : SelState) (i : ℕ) (s : ℚ) :
    (applySelect cfg st i s).pointer = st.pointer := by simp [applySelect]

theorem applySelect_maxRepeat (cfg : LoopCfg) (st : SelState) (i : ℕ) (s : ℚ) :
    (applySelect cfg st i s).maxRepeat = st.maxRepeat := by simp [applySelect]

theorem stallUpdate_selected (cfg : LoopCfg) (st : SelState) :
    (stallUpdate cfg st).selected = st.selected := by
  simp only [stallUpdate]; split <;> rfl

theorem stallUpdate_cases (cfg : LoopCfg) (st : SelState) :
    (st.maxRepeat < cfg.maxRepeatLimit ∧
      (stallUpdate cfg st).maxRepeat = st.maxRepeat + 1 ∧
      (stallUpdate cfg st).pointer = st.pointer) ∨
    ((stallUpdate cfg st).maxRepeat = st.maxRepeat ∧
      (stallUpdate cfg st).pointer = st.pointer + cfg.window) := by
  simp only [stallUpdate]
  split
  · next h => exact Or.inl ⟨h.2.2, rfl, rfl⟩
  · exact Or.inr ⟨rfl, rfl⟩

theorem stallUpdate_measure_lt (cfg : LoopCfg) (st : SelState)
    (hwin : 0 < cfg.window) (hp : st.pointer < cfg.order.length) :
    loopMeasure cfg (stallUpdate cfg st) < loopMeasure cfg st := by
  rcases stallUpdate_cases cfg st with ⟨hlt, hmr, hptr⟩ | ⟨hmr, hptr⟩ <;>
    unfold loopMeasure <;>
    rw [stallUpdate_selected, hmr, hptr] <;> omega

theorem applySelect_measure_lt (cfg : LoopCfg) (st : SelState) (i : ℕ) (s : ℚ)
    (hlen : st.selected.length < cfg.nTarget) :
    loopMeasure cfg (applySelect cfg st i s) < loopMeasure cfg st := by
  unfold loopMeasure
  rw [applySelect_selected_length, applySelect_pointer, applySelect_maxRepeat]
  omega

/-- The `while` loop of `greedy_select` (`core.py` lines 464–496),
translated by well-founded recursion: loop while the target is unmet
and the ranked order is not exhausted; select the best passing
candidate in the window if any, otherwise stall. -/
def loop (cfg : LoopCfg) (hw : 0 < cfg.window ∨ cfg.order.length = 0)
    (st : SelState) : SelState :=
  if h : st.selected.length < cfg.nTarget ∧ st.pointer < cfg.order.length then
    match pickBest cfg st with
    | some (i, s) => loop cfg hw (applySelect cfg st i s)
    | none => loop cfg hw (stallUpdate cfg st)
  else st
termination_by loopMeasure cfg st
decreasing_by
  · exact applySelect_measure_lt cfg st i s h.1
  · refine stallUpdate_measure_lt cfg st ?_ h.2
    rcases hw with hw | hw
    · exact hw
    · omega

/-- Fuel-indexed evaluator for the same loop body, used to compute
concrete runs; `loopF_eq_loop` shows it agrees with `loop` whenever the
fuel exceeds the termination measure. -/
def loopF (cfg : LoopCfg) : ℕ → SelState → SelState
  | 0, st => st
  | fuel + 1, st =>
    if st.selected.length < cfg.nTarget ∧ st.pointer < cfg.order.length then
      match pickBest cfg st with
      | some (i, s) => loopF cfg fuel (applySelect cfg st i s)
      | none => loopF cfg fuel (stallUpdate cfg st)
    else st

theorem loopF_eq_loop (cfg : LoopCfg)
    (hw : 0 < cfg.window ∨ cfg.order.length = 0) :
    ∀ fuel st, loopMeasure cfg st < fuel → loopF cfg fuel st = loop cfg hw st := by
  intro fuel
  induction fuel with
  | zero => intro st h; omega
  | succ n ih =>
    intro st h
    rw [loop.eq_def]
    unfold loopF
    by_cases hg : st.selected.length < cfg.nTarget ∧ st.pointer < cfg.order.length
    · rw [if_pos hg, dif_pos hg]
      cases hpb : pickBest cfg st with
      | some v =>
        obtain ⟨i, s⟩ := v
        exact ih _ (by have := applySelect_measure_lt cfg st i s hg.1; omega)
      | none =>
        refine ih _ ?_
        have hwin : 0 < cfg.window := by
          rcases hw with hw | hw
          · exact hw
          · omega
        have := stallUpdate_measure_lt cfg st hwin hg.2
        omega
    · rw [if_neg hg, dif_neg hg]

/-- Modelled from the spec: the ambient `random` PRNG used for the
per-candidate tiebreak draws is a deterministic stream; its exact
distribution is irrelevant to every claim, so a linear-congruential
step stands in for the Mersenne Twister. -/
def rngNext (s : ℕ) : ℕ :=
  (s * 1103515245 + 12345) % 2 ^ 31

/-- The PRNG state after `i` draws from initial state `g`. -/
def rngState (g : ℕ) : ℕ → ℕ
  | 0 => g
  | i + 1 => rngNext (rngState g i)

/-- Modelled from the spec: the value of the `i`-th `random.random()`
call after the state is `g`, a rational in `[0, 1)`. -/
def rngValAt (g : ℕ) (i : ℕ) : ℚ :=
  (rngState g (i + 1) : ℚ) / 2 ^ 31

/-- Modelled from the spec: `random.seed(seed)` resets the global PRNG
state to a value determined by the seed alone; with `seed=None` the
pre-existing state `g` is kept (`core.py` lines 427–428). -/
def effState (g : ℕ) (seed : Option ℕ) : ℕ :=
  match seed with
  | some s => s
  | none => g

/-- The composite score of each record (`core.py` lines 440–449):
weighted normalized projection, correlation, uniqueness, minus weighted
normalized chalk, plus the sport-specific extra score. -/
def scoresOf (records : List LineupRecord) (weights : ScoreWeights) : List ℚ :=
  let projNorm := normalize (records.map fun r => r.projSum)
  let corrNorm := normalize (records.map fun r => r.corrScore)
  let uniqNorm := normalize (records.map fun r => r.uniqLogsum)
  let chalkNorm := normalize (records.map fun r => r.chalkSum)
  (List.range records.length).map fun i =>
    weights.projection * projNorm.getD i 0 +
      weights.correlation * corrNorm.getD i 0 +
      weights.uniqueness * uniqNorm.getD i 0 -
      weights.chalk * chalkNorm.getD i 0 +
      (recAt records i).extraScore

/-- Strict descending comparison on the `(composite_score, tiebreak)`
sort key of a score entry. -/
def entryGt (a b : ℚ × ℚ × ℕ) : Bool :=
  decide (b.1 < a.1) || (decide (a.1 = b.1) && decide (b.2.1 < a.2.1))

/-- Insert an entry after every earlier entry with a key that is not
strictly smaller: the insertion step of a stable descending sort. -/
def insertEntry (x : ℚ × ℚ × ℕ) : List (ℚ × ℚ × ℕ) → List (ℚ × ℚ × ℕ)
  | [] => [x]
  | y :: ys => if entryGt x y then x :: y :: ys else y :: insertEntry x ys

/-- `score_entries.sort(key=(score, rnd), reverse=True)`: Python's sort
is stable, and a stable descending sort is exactly left-to-right stable
insertion. -/
def sortEntriesDesc (l : List (ℚ × ℚ × ℕ)) : List (ℚ × ℚ × ℕ) :=
  l.foldl (fun acc x => insertEntry x acc) []

/-- The ranked `(score, tiebreak, idx)` entries of `greedy_select`
(`core.py` lines 427–452): seed the PRNG, draw one tiebreak per record
in index order, and sort descending by `(score, tiebreak)`. -/
def rankEntries (g : ℕ) (records : List LineupRecord) (weights : ScoreWeights)
    (seed : Option ℕ) : List (ℚ × ℚ × ℕ) :=
  let g0 := effState g seed
  let scores := scoresOf records weights
  sortEntriesDesc
    ((List.range records.length).map fun i => (scores.getD i 0, rngValAt g0 i, i))

/-- `cap_count = max(1, int(math.floor((cap_pct / 100.0) * n_target +
1e-9)))` (`core.py` line 429). -/
def capCountOf (capPct : ℚ) (nTarget : ℕ) : ℤ :=
  max 1 ⌊capPct / 100 * (nTarget : ℚ) + 1 / 10 ^ 9⌋

/-- The diagnostics dict returned by `greedy_select` (`core.py` lines
498–508). -/
structure Diag where
  capPct : ℚ
  capCount : ℤ
  maxRepeatStart : ℤ
  maxRepeatFinal : ℤ
  repeatRelaxations : ℕ
  picked : ℕ
  target : ℕ
  lineupsConsidered : ℕ
  selectionWindow : ℕ
deriving DecidableEq

/-- The fixed loop configuration assembled by `greedy_select` before
entering its `while` loop. -/
def selCfg (g : ℕ) (records : List LineupRecord) (weights : ScoreWeights)
    (nTarget : ℕ) (capPct : ℚ) (maxRepeatLimit : ℤ) (breadthPenalty : ℚ)
    (selectionWindow : ℤ) (stalledThreshold : ℤ) (seed : Option ℕ) : LoopCfg :=
  let scores := scoresOf records weights
  let order := (rankEntries g records weights seed).map fun e => e.2.2
  { records := records
    lookup := fun i => scores.getD i 0
    order := order
    nTarget := nTarget
    capCount := capCountOf capPct nTarget
    maxRepeatLimit := maxRepeatLimit
    breadthPenalty := breadthPenalty
    window := if 0 < selectionWindow then
        min selectionWindow.toNat order.length
      else order.length
    stalledThreshold := stalledThreshold }

/-- The initial selection state (`core.py` lines 456–462). -/
def initSelState (maxRepeatInit : ℤ) : SelState :=
  { selected := []
    counts := fun _ => 0
    seen := []
    maxRepeat := maxRepeatInit
    relaxations := 0
    pointer := 0
    stalled := 0 }

theorem selCfg_hw (g : ℕ) (records : List LineupRecord)
    (weights : ScoreWeights) (nTarget : ℕ) (capPct : ℚ) (maxRepeatLimit : ℤ)
    (breadthPenalty : ℚ) (selectionWindow : ℤ) (stalledThreshold : ℤ)
    (seed : Option ℕ) :
    0 < (selCfg g records weights nTarget capPct maxRepeatLimit breadthPenalty
        selectionWindow stalledThreshold seed).window ∨
      (selCfg g records weights nTarget capPct maxRepeatLimit breadthPenalty
        selectionWindow stalledThreshold seed).order.length = 0 := by
  simp only [selCfg]
  set n := ((rankEntries g records weights seed).map fun e => e.2.2).length with hn
  rcases Nat.eq_zero_or_pos n with h0 | hpos
  · exact Or.inr h0
  · left
    split
    · next hsw => simp only [lt_min_iff]; omega
    · exact hpos

/-- The diagnostics assembled from the final loop state. -/
def mkDiag (capPct : ℚ) (nTarget : ℕ) (maxRepeatInit : ℤ)
    (records : List LineupRecord) (window : ℕ) (stF : SelState) : Diag :=
  { capPct := capPct
    capCount := capCountOf capPct nTarget
    maxRepeatStart := maxRepeatInit
    maxRepeatFinal := stF.maxRepeat
    repeatRelaxations := stF.relaxations
    picked := stF.selected.length
    target := nTarget
    lineupsConsidered := records.length
    selectionWindow := window }

/-- `greedy_select` from `core.py` lines 415–509: seed the PRNG, rank
the records, run the constrained greedy loop, and return the selected
lineups, the per-player counts and the diagnostics. -/
def greedySelect (g : ℕ) (records : List LineupRecord)
    (weights : ScoreWeights) (nTarget : ℕ) (capPct : ℚ) (maxRepeatInit : ℤ)
    (maxRepeatLimit : ℤ) (breadthPenalty : ℚ) (selectionWindow : ℤ)
    (stalledThreshold : ℤ) (seed : Option ℕ) :
    List ScoredLineup × (String → ℕ) × Diag :=
  let cfg := selCfg g records weights nTarget capPct maxRepeatLimit
    breadthPenalty selectionWindow stalledThreshold seed
  let stF := loop cfg
    (selCfg_hw g records weights nTarget capPct maxRepeatLimit breadthPenalty
      selectionWindow stalledThreshold seed)
    (initSelState maxRepeatInit)
  (stF.selected, stF.counts, mkDiag capPct nTarget maxRepeatInit records
    cfg.window stF)

theorem greedySelect_eq_loopF (g : ℕ) (records : List LineupRecord)
    (weights : ScoreWeights) (nTarget : ℕ) (capPct : ℚ) (maxRepeatInit : ℤ)
    (maxRepeatLimit : ℤ) (breadthPenalty : ℚ) (selectionWindow : ℤ)
    (stalledThreshold : ℤ) (seed : Option ℕ) (fuel : ℕ)
    (hf : loopMeasure
      (selCfg g records weights nTarget capPct maxRepeatLimit breadthPenalty
        selectionWindow stalledThreshold seed)
      (initSelState maxRepeatInit) < fuel) :
    greedySelect g records weights nTarget capPct maxRepeatInit maxRepeatLimit
        breadthPenalty selectionWindow stalledThreshold seed =
      (let cfg := selCfg g records weights nTarget capPct maxRepeatLimit
        breadthPenalty selectionWindow stalledThreshold seed
       let stF := loopF cfg fuel (initSelState maxRepeatInit)
       (stF.selected, stF.counts, mkDiag capPct nTarget maxRepeatInit records
         cfg.window stF)) := by
  unfold greedySelect
  dsimp only
  rw [loopF_eq_loop _ (selCfg_hw g records weights nTarget capPct
    maxRepeatLimit breadthPenalty selectionWindow stalledThreshold seed)
    fuel _ hf]

theorem contains_iff_mem (l : List String) (x : String) :
    l.contains x = true ↔ x ∈ l := by
  simp [List.contains_iff_exists_mem_beq]

theorem setSubsetb_iff (a b : List String) :
    setSubsetb a b = true ↔ ∀ x ∈ a, x ∈ b := by
  simp [setSubsetb, List.all_eq_true, contains_iff_mem]

theorem setEqb_iff (a b : List String) :
    setEqb a b = true ↔ a.toFinset = b.toFinset := by
  simp only [setEqb, Bool.and_eq_true, setSubsetb_iff]
  constructor
  · rintro ⟨h1, h2⟩
    ext x
    simp only [List.mem_toFinset]
    exact ⟨h1 x, h2 x⟩
  · intro h
    refine ⟨fun x hx => ?_, fun x hx => ?_⟩
    · have hx2 := List.mem_toFinset.2 hx
      rw [h] at hx2
      exact List.mem_toFinset.1 hx2
    · have hx2 := List.mem_toFinset.2 hx
      rw [← h] at hx2
      exact List.mem_toFinset.1 hx2

theorem seenContains_iff (s : List (List String)) (x : List String) :
    seenContains s x = true ↔ ∃ m ∈ s, m.toFinset = x.toFinset := by
  simp [seenContains, List.any_eq_true, setEqb_iff]

theorem passesCaps_iff (lineup : LineupRecord) (selected : List ScoredLineup)
    (counts : String → ℕ) (capCount maxRepeat : ℤ)
    (seenSets : List (List String)) :
    passesCaps lineup selected counts capCount maxRepeat seenSets = true ↔
      (∀ pid ∈ lineup.playersId, (counts pid : ℤ) + 1 ≤ capCount) ∧
      seenContains seenSets lineup.playersId = false ∧
      (maxRepeat < (lineup.playersId.length : ℤ) →
        ∀ chosen ∈ selected,
          ((chosen.playersId.countP
            fun pid => lineup.playersId.contains pid : ℕ) : ℤ) ≤ maxRepeat) := by
  unfold passesCaps
  by_cases hlt : maxRepeat < (lineup.playersId.length : ℤ)
  · simp [hlt, List.all_eq_true]
    tauto
  · simp [if_neg hlt, hlt, List.all_eq_true]

/-- Number of selected lineups that contain a given player (a lineup
with the player in several slots counts once). -/
def lineupCount (sel : List ScoredLineup) (pid : String) : ℕ :=
  sel.countP fun l => l.playersId.contains pid

/-- Number of distinct player ids shared by two lineups. -/
def sharedCard (a b : List String) : ℕ :=
  (a.toFinset ∩ b.toFinset).card

theorem sharedCard_le_countP (a b : List String) :
    sharedCard a b ≤ a.countP fun pid => b.contains pid := by
  have h1 : a.toFinset ∩ b.toFinset =
      (a.filter fun pid => b.contains pid).toFinset := by
    ext x
    simp [List.mem_filter, contains_iff_mem, Finset.mem_inter]
  rw [sharedCard, h1, List.countP_eq_length_filter]
  exact List.toFinset_card_le _

theorem sharedCard_le_right (a b : List String) : sharedCard a b ≤ b.length :=
  le_trans (Finset.card_le_card Finset.inter_subset_right)
    (List.toFinset_card_le b)

theorem foldl_bumpCounts_apply (L : List String) (c : String → ℕ)
    (q : String) : L.foldl bumpCounts c q = c q + L.count q := by
  induction L generalizing c with
  | nil => simp
  | cons p L ih =>
    simp only [List.foldl_cons, List.count_cons, ih]
    unfold bumpCounts
    by_cases h : q = p
    · subst h; simp; omega
    · simp [h, Ne.symm h]

theorem lineupCount_append (sel : List ScoredLineup) (x : ScoredLineup)
    (pid : String) :
    lineupCount (sel ++ [x]) pid =
      lineupCount sel pid + (if x.playersId.contains pid then 1 else 0) := by
  simp [lineupCount, List.countP_append, List.countP_cons]

theorem pickStep_passes (cfg : LoopCfg) (st : SelState)
    (best : Option (ℕ × ℚ)) (j : ℕ)
    (hb : ∀ i s, best = some (i, s) →
      passesCaps (recAt cfg.records i) st.selected st.counts cfg.capCount
        st.maxRepeat st.seen = true) :
    ∀ i s, pickStep cfg st best j = some (i, s) →
      passesCaps (recAt cfg.records i) st.selected st.counts cfg.capCount
        st.maxRepeat st.seen = true := by
  intro i s h
  simp only [pickStep] at h
  by_cases hp : passesCaps (recAt cfg.records j) st.selected st.counts
      cfg.capCount st.maxRepeat st.seen = true
  · rw [if_pos hp] at h
    cases best with
    | none =>
      simp only [Option.some.injEq, Prod.mk.injEq] at h
      rw [← h.1]
      exact hp
    | some v =>
      obtain ⟨bi, bs⟩ := v
      dsimp only at h
      split at h
      · simp only [Option.some.injEq, Prod.mk.injEq] at h
        rw [← h.1]
        exact hp
      · simp only [Option.some.injEq, Prod.mk.injEq] at h
        exact h.1 ▸ hb bi bs rfl
  · rw [if_neg hp] at h
    exact hb i s h

theorem pickBest_passes (cfg : LoopCfg) (st : SelState) (i : ℕ) (s : ℚ)
    (h : pickBest cfg st = some (i, s)) :
    passesCaps (recAt cfg.records i) st.selected st.counts cfg.capCount
      st.maxRepeat st.seen = true := by
  unfold pickBest at h
  revert h
  generalize (cfg.order.drop st.pointer).take cfg.window = batch
  suffices H : ∀ (batch : List ℕ) (init : Option (ℕ × ℚ)),
      (∀ j t, init = some (j, t) →
        passesCaps (recAt cfg.records j) st.selected st.counts cfg.capCount
          st.maxRepeat st.seen = true) →
      batch.foldl (pickStep cfg st) init = some (i, s) →
      passesCaps (recAt cfg.records i) st.selected st.counts cfg.capCount
        st.maxRepeat st.seen = true by
    intro h
    exact H batch none (by simp) h
  intro batch
  induction batch with
  | nil =>
    intro init hinit h
    exact hinit i s h
  | cons j batch ih =>
    intro init hinit h
    exact ih (pickStep cfg st init j) (pickStep_passes cfg st init j hinit) h

theorem applySelect_selected (cfg : LoopCfg) (st : SelState) (i : ℕ) (s : ℚ) :
    (applySelect cfg st i s).selected =
      st.selected ++ [{ toLineupRecord := recAt cfg.records i, score := s }] := by
  simp [applySelect]

theorem applySelect_counts (cfg : LoopCfg) (st : SelState) (i : ℕ) (s : ℚ) :
    (applySelect cfg st i s).counts =
      (recAt cfg.records i).playersId.foldl bumpCounts st.counts := by
  simp [applySelect]

theorem applySelect_seen (cfg : LoopCfg) (st : SelState) (i : ℕ) (s : ℚ) :
    (applySelect cfg st i s).seen =
      st.seen ++ [(recAt cfg.records i).playersId] := by
  simp [applySelect]

theorem stallUpdate_counts (cfg : LoopCfg) (st : SelState) :
    (stallUpdate cfg st).counts = st.counts := by
  simp only [stallUpdate]; split <;> rfl

theorem stallUpdate_seen (cfg : LoopCfg) (st : SelState) :
    (stallUpdate cfg st).seen = st.seen := by
  simp only [stallUpdate]; split <;> rfl

theorem stallUpdate_maxRepeat_ge (cfg : LoopCfg) (st : SelState) :
    st.maxRepeat ≤ (stallUpdate cfg st).maxRepeat := by
  rcases stallUpdate_cases cfg st with ⟨_, h, _⟩ | ⟨h, _⟩ <;> omega

/-- The invariant of the selection loop that underlies every
selection-run guarantee: lineup-membership counts are dominated by the
count map and bounded by the cap, every selected lineup's player set is
in the seen-set, player sets are pairwise distinct, pairwise shared
players respect the current overlap threshold, and the target is never
exceeded. -/
structure SelInv (cfg : LoopCfg) (st : SelState) : Prop where
  counts_ge : ∀ pid, lineupCount st.selected pid ≤ st.counts pid
  cap : ∀ pid, (lineupCount st.selected pid : ℤ) ≤ cfg.capCount
  seen_mem : ∀ l ∈ st.selected, seenContains st.seen l.playersId = true
  distinct : st.selected.Pairwise
    (fun a b => a.playersId.toFinset ≠ b.playersId.toFinset)
  overlap : st.selected.Pairwise
    (fun a b => (sharedCard a.playersId b.playersId : ℤ) ≤ st.maxRepeat)
  length_le : st.selected.length ≤ cfg.nTarget

theorem selInv_applySelect (cfg : LoopCfg) (st : SelState) (i : ℕ) (s : ℚ)
    (hlen : st.selected.length < cfg.nTarget)
    (hpass : passesCaps (recAt cfg.records i) st.selected st.counts
      cfg.capCount st.maxRepeat st.seen = true)
    (hinv : SelInv cfg st) : SelInv cfg (applySelect cfg st i s) := by
  obtain ⟨hcnt, hcap, hseen, hdis, hov, hlen'⟩ := hinv
  rw [passesCaps_iff] at hpass
  obtain ⟨hp1, hp2, hp3⟩ := hpass
  have hnew : ({ toLineupRecord := recAt cfg.records i, score := s } :
      ScoredLineup).playersId = (recAt cfg.records i).playersId := rfl
  have hcross : ∀ a ∈ st.selected,
      a.playersId.toFinset ≠ (recAt cfg.records i).playersId.toFinset := by
    intro a ha heq
    have h1 : seenContains st.seen a.playersId = true := hseen a ha
    rw [seenContains_iff] at h1
    obtain ⟨m, hm, hmf⟩ := h1
    have : seenContains st.seen (recAt cfg.records i).playersId = true := by
      rw [seenContains_iff]
      exact ⟨m, hm, hmf.trans heq⟩
    rw [hp2] at this
    exact Bool.false_ne_true this
  constructor
  · intro pid
    rw [applySelect_selected, applySelect_counts, lineupCount_append,
      foldl_bumpCounts_apply, hnew]
    by_cases hc : (recAt cfg.records i).playersId.contains pid = true
    · have hmem : pid ∈ (recAt cfg.records i).playersId :=
        (contains_iff_mem _ _).1 hc
      have hcount : 0 < (recAt cfg.records i).playersId.count pid :=
        List.count_pos_iff.2 hmem
      have h2 := hcnt pid
      simp [hc, hmem]
      omega
    · have hnmem : pid ∉ (recAt cfg.records i).playersId :=
        fun hm => hc ((contains_iff_mem _ _).2 hm)
      have h2 := hcnt pid
      simp [hc, hnmem]
      omega
  · intro pid
    rw [applySelect_selected, lineupCount_append, hnew]
    by_cases hc : (recAt cfg.records i).playersId.contains pid = true
    · have hmem : pid ∈ (recAt cfg.records i).playersId :=
        (contains_iff_mem _ _).1 hc
      have h1 := hp1 pid hmem
      have h2 := hcnt pid
      simp only [hc, if_true]
      push_cast
      omega
    · simp only [hc, if_false]
      exact hcap pid
  · intro l hl
    rw [applySelect_selected] at hl
    rw [applySelect_seen, seenContains_iff]
    rcases List.mem_append.1 hl with hl | hl
    · have h1 := hseen l hl
      rw [seenContains_iff] at h1
      obtain ⟨m, hm, hmf⟩ := h1
      exact ⟨m, List.mem_append_left _ hm, hmf⟩
    · have : l = ({ toLineupRecord := recAt cfg.records i, score := s } :
          ScoredLineup) := by simpa using hl
      subst this
      exact ⟨(recAt cfg.records i).playersId,
        List.mem_append_right _ (by simp), rfl⟩
  · rw [applySelect_selected]
    rw [List.pairwise_append]
    refine ⟨hdis, by simp, ?_⟩
    intro a ha b hb
    have : b = ({ toLineupRecord := recAt cfg.records i, score := s } :
        ScoredLineup) := by simpa using hb
    subst this
    exact hcross a ha
  · rw [applySelect_selected, List.pairwise_append]
    rw [applySelect_maxRepeat]
    refine ⟨hov, by simp, ?_⟩
    intro a ha b hb
    have : b = ({ toLineupRecord := recAt cfg.records i, score := s } :
        ScoredLineup) := by simpa using hb
    subst this
    rw [hnew]
    by_cases hlt : st.maxRepeat < ((recAt cfg.records i).playersId.length : ℤ)
    · have h1 := hp3 hlt a ha
      have h2 := sharedCard_le_countP a.playersId (recAt cfg.records i).playersId
      have h3 : (sharedCard a.playersId (recAt cfg.records i).playersId : ℤ) ≤
          ((a.playersId.countP
            fun pid => (recAt cfg.records i).playersId.contains pid : ℕ) : ℤ) := by
        exact_mod_cast h2
      omega
    · push_neg at hlt
      have h2 := sharedCard_le_right a.playersId (recAt cfg.records i).playersId
      have h3 : (sharedCard a.playersId (recAt cfg.records i).playersId : ℤ) ≤
          (((recAt cfg.records i).playersId.length : ℕ) : ℤ) := by
        exact_mod_cast h2
      omega
  · rw [applySelect_selected]
    simp only [List.length_append, List.length_singleton]
    omega

theorem selInv_stallUpdate (cfg : LoopCfg) (st : SelState)
    (hinv : SelInv cfg st) : SelInv cfg (stallUpdate cfg st) := by
  obtain ⟨hcnt, hcap, hseen, hdis, hov, hlen'⟩ := hinv
  have hmr := stallUpdate_maxRepeat_ge cfg st
  constructor
  · intro pid
    rw [stallUpdate_selected, stallUpdate_counts]
    exact hcnt pid
  · intro pid
    rw [stallUpdate_selected]
    exact hcap pid
  · intro l hl
    rw [stallUpdate_selected] at hl
    rw [stallUpdate_seen]
    exact hseen l hl
  · rw [stallUpdate_selected]
    exact hdis
  · rw [stallUpdate_selected]
    exact hov.imp fun h => le_trans h hmr
  · rw [stallUpdate_selected]
    exact hlen'

theorem loopF_selInv (cfg : LoopCfg) :
    ∀ fuel st, SelInv cfg st → SelInv cfg (loopF cfg fuel st) := by
  intro fuel
  induction fuel with
  | zero => intro st h; exact h
  | succ n ih =>
    intro st h
    unfold loopF
    by_cases hg : st.selected.length < cfg.nTarget ∧
        st.pointer < cfg.order.length
    · rw [if_pos hg]
      cases hpb : pickBest cfg st with
      | some v =>
        obtain ⟨i, s⟩ := v
        exact ih _ (selInv_applySelect cfg st i s hg.1
          (pickBest_passes cfg st i s hpb) h)
      | none =>
        exact ih _ (selInv_stallUpdate cfg st h)
    · rw [if_neg hg]
      exact h

theorem loop_selInv (cfg : LoopCfg)
    (hw : 0 < cfg.window ∨ cfg.order.length = 0) (st : SelState)
    (h : SelInv cfg st) : SelInv cfg (loop cfg hw st) := by
  rw [← loopF_eq_loop cfg hw (loopMeasure cfg st + 1) st (by omega)]
  exact loopF_selInv cfg _ st h

theorem selInv_init (cfg : LoopCfg) (mr : ℤ) (hcap : 0 ≤ cfg.capCount) :
    SelInv cfg (initSelState mr) := by
  constructor <;> simp [initSelState, lineupCount]
  · exact hcap

theorem capCountOf_pos (capPct : ℚ) (nTarget : ℕ) :
    1 ≤ capCountOf capPct nTarget :=
  le_max_left 1 _

theorem selCfg_capCount (g : ℕ) (records : List LineupRecord)
    (weights : ScoreWeights) (nTarget : ℕ) (capPct : ℚ) (maxRepeatLimit : ℤ)
    (breadthPenalty : ℚ) (selectionWindow : ℤ) (stalledThreshold : ℤ)
    (seed : Option ℕ) :
    (selCfg g records weights nTarget capPct maxRepeatLimit breadthPenalty
      selectionWindow stalledThreshold seed).capCount =
      capCountOf capPct nTarget := rfl

theorem greedySelect_selInv (g : ℕ) (records : List LineupRecord)
    (weights : ScoreWeights) (nTarget : ℕ) (capPct : ℚ) (maxRepeatInit : ℤ)
    (maxRepeatLimit : ℤ) (breadthPenalty : ℚ) (selectionWindow : ℤ)
    (stalledThreshold : ℤ) (seed : Option ℕ) :
    SelInv
      (selCfg g records weights nTarget capPct maxRepeatLimit breadthPenalty
        selectionWindow stalledThreshold seed)
      (loop
        (selCfg g records weights nTarget capPct maxRepeatLimit breadthPenalty
          selectionWindow stalledThreshold seed)
        (selCfg_hw g records weights nTarget capPct maxRepeatLimit
          breadthPenalty selectionWindow stalledThreshold seed)
        (initSelState maxRepeatInit)) := by
  apply loop_selInv
  apply selInv_init
  rw [selCfg_capCount]
  exact le_trans zero_le_one (capCountOf_pos capPct nTarget)

/-- C1: in every completed run of `greedy_select`, every player is
contained in at most `cap_count = max(1, floor(cap_pct/100 × n_target +
1e-9))` selected lineups, also when a lineup repeats a player id across
roster slots (membership counts each lineup once, while the internal
count map may advance faster). -/
theorem greedySelect_exposure_cap (g : ℕ) (records : List LineupRecord)
    (weights : ScoreWeights) (nTarget : ℕ) (capPct : ℚ) (maxRepeatInit : ℤ)
    (maxRepeatLimit : ℤ) (breadthPenalty : ℚ) (selectionWindow : ℤ)
    (stalledThreshold : ℤ) (seed : Option ℕ) (pid : String) :
    ((lineupCount
        (greedySelect g records weights nTarget capPct maxRepeatInit
          maxRepeatLimit breadthPenalty selectionWindow stalledThreshold
          seed).1 pid : ℕ) : ℤ) ≤
      max 1 ⌊capPct / 100 * (nTarget : ℚ) + 1 / 10 ^ 9⌋ :=
  (greedySelect_selInv g records weights nTarget capPct maxRepeatInit
    maxRepeatLimit breadthPenalty selectionWindow stalledThreshold seed).cap
    pid

/-- C2: in every completed run of `greedy_select`, any two distinct
selected lineups share at most `max_repeat`-as-reported-final distinct
player ids; lineups accepted before a relaxation satisfy the final,
larger threshold, and lineups accepted while the pairwise check was
skipped cannot exceed it either. -/
theorem greedySelect_overlap_le_final (g : ℕ) (records : List LineupRecord)
    (weights : ScoreWeights) (nTarget : ℕ) (capPct : ℚ) (maxRepeatInit : ℤ)
    (maxRepeatLimit : ℤ) (breadthPenalty : ℚ) (selectionWindow : ℤ)
    (stalledThreshold : ℤ) (seed : Option ℕ) :
    (greedySelect g records weights nTarget capPct maxRepeatInit
        maxRepeatLimit breadthPenalty selectionWindow stalledThreshold
        seed).1.Pairwise
      (fun L M => (sharedCard L.playersId M.playersId : ℤ) ≤
        (greedySelect g records weights nTarget capPct maxRepeatInit
          maxRepeatLimit breadthPenalty selectionWindow stalledThreshold
          seed).2.2.maxRepeatFinal) :=
  (greedySelect_selInv g records weights nTarget capPct maxRepeatInit
    maxRepeatLimit breadthPenalty selectionWindow stalledThreshold
    seed).overlap

/-- C3: in every completed run of `greedy_select`, no two selected
lineups have the same player-id set; in particular at most one of any
two pool records with identical player-id sets is selected. -/
theorem greedySelect_distinct_playerSets (g : ℕ) (records : List LineupRecord)
    (weights : ScoreWeights) (nTarget : ℕ) (capPct : ℚ) (maxRepeatInit : ℤ)
    (maxRepeatLimit : ℤ) (breadthPenalty : ℚ) (selectionWindow : ℤ)
    (stalledThreshold : ℤ) (seed : Option ℕ) :
    (greedySelect g records weights nTarget capPct maxRepeatInit
        maxRepeatLimit breadthPenalty selectionWindow stalledThreshold
        seed).1.Pairwise
      (fun L M => L.playersId.toFinset ≠ M.playersId.toFinset) :=
  (greedySelect_selInv g records weights nTarget capPct maxRepeatInit
    maxRepeatLimit breadthPenalty selectionWindow stalledThreshold
    seed).distinct

/-- C9: with a fixed non-`None` seed and identical inputs,
`greedy_select` is independent of the pre-existing global PRNG state:
two runs produce the same ranked entries (scores and random tiebreaks
included), the same selected lineups in order, the same per-player
counts and the same diagnostics. -/
theorem greedySelect_deterministic (g1 g2 : ℕ) (records : List LineupRecord)
    (weights : ScoreWeights) (nTarget : ℕ) (capPct : ℚ) (maxRepeatInit : ℤ)
    (maxRepeatLimit : ℤ) (breadthPenalty : ℚ) (selectionWindow : ℤ)
    (stalledThreshold : ℤ) (s : ℕ) :
    rankEntries g1 records weights (some s) =
        rankEntries g2 records weights (some s) ∧
      greedySelect g1 records weights nTarget capPct maxRepeatInit
          maxRepeatLimit breadthPenalty selectionWindow stalledThreshold
          (some s) =
        greedySelect g2 records weights nTarget capPct maxRepeatInit
          maxRepeatLimit breadthPenalty selectionWindow stalledThreshold
          (some s) :=
  ⟨rfl, rfl⟩

/-- C10: `greedy_select` returns at most `n_target` lineups and never
selects the same input record twice: the selected records are pairwise
distinct. -/
theorem greedySelect_length_and_no_reselect (g : ℕ)
    (records : List LineupRecord) (weights : ScoreWeights) (nTarget : ℕ)
    (capPct : ℚ) (maxRepeatInit : ℤ) (maxRepeatLimit : ℤ)
    (breadthPenalty : ℚ) (selectionWindow : ℤ) (stalledThreshold : ℤ)
    (seed : Option ℕ) :
    (greedySelect g records weights nTarget capPct maxRepeatInit
        maxRepeatLimit breadthPenalty selectionWindow stalledThreshold
        seed).1.length ≤ nTarget ∧
      (greedySelect g records weights nTarget capPct maxRepeatInit
          maxRepeatLimit breadthPenalty selectionWindow stalledThreshold
          seed).1.Pairwise
        (fun L M => L.toLineupRecord ≠ M.toLineupRecord) := by
  refine ⟨(greedySelect_selInv g records weights nTarget capPct maxRepeatInit
    maxRepeatLimit breadthPenalty selectionWindow stalledThreshold
    seed).length_le, ?_⟩
  refine ((greedySelect_selInv g records weights nTarget capPct maxRepeatInit
    maxRepeatLimit breadthPenalty selectionWindow stalledThreshold
    seed).distinct).imp ?_
  intro a b hne heq
  exact hne (by rw [show a.playersId = b.playersId from
    congrArg LineupRecord.playersId heq])

theorem cntGet_cons (r : String) (c : ℕ) (m : List (String × ℕ))
    (p : String) :
    cntGet ((r, c) :: m) p = if r == p then c else cntGet m p := by
  by_cases h : (r == p) = true <;> simp [cntGet, h]

theorem cntGet_bumpAssoc (m : List (String × ℕ)) (q p : String) :
    cntGet (bumpAssoc m q) p =
      if p = q then cntGet m p + 1 else cntGet m p := by
  induction m with
  | nil =>
    by_cases h : p = q <;> simp [bumpAssoc, cntGet, h, Ne.symm]
  | cons e m ih =>
    obtain ⟨r, c⟩ := e
    by_cases hrq : r = q
    · subst hrq
      rw [show bumpAssoc ((r, c) :: m) r = (r, c + 1) :: m from by
        simp [bumpAssoc]]
      rw [cntGet_cons, cntGet_cons]
      by_cases hpr : p = r
      · simp [hpr]
      · simp [hpr, Ne.symm hpr]
    · rw [show bumpAssoc ((r, c) :: m) q = (r, c) :: bumpAssoc m q from by
        simp [bumpAssoc, hrq]]
      rw [cntGet_cons, cntGet_cons, ih]
      by_cases hpr : p = r
      · subst hpr
        have hpq : ¬p = q := hrq
        simp [hpq]
      · simp [hpr, Ne.symm hpr]

theorem cntGet_foldRow (row : List String) (m : List (String × ℕ))
    (p : String) (hp : p ≠ "") :
    cntGet (row.foldl
        (fun cs2 pid => if pid ≠ "" then bumpAssoc cs2 pid else cs2) m) p =
      cntGet m p + row.countP (fun c => c == p) := by
  induction row generalizing m with
  | nil => simp
  | cons c row ih =>
    simp only [List.foldl_cons, List.countP_cons]
    by_cases hc : c = ""
    · subst hc
      rw [if_neg (by simp)]
      rw [ih m]
      have hne : ¬(("" : String) == p) = true := by
        simp [Ne.symm hp]
      simp [hne]
    · rw [if_pos hc]
      rw [ih (bumpAssoc m c), cntGet_bumpAssoc]
      by_cases hcp : p = c
      · subst hcp
        simp
        omega
      · have : ¬(c == p) = true := by simp [Ne.symm hcp]
        simp [hcp, this]

theorem cntGet_foldRows (rows : List (List String))
    (m : List (String × ℕ)) (p : String) (hp : p ≠ "") :
    cntGet (rows.foldl
        (fun cs row => row.foldl
          (fun cs2 pid => if pid ≠ "" then bumpAssoc cs2 pid else cs2) cs)
        m) p =
      cntGet m p + (rows.map fun r => r.countP fun c => c == p).sum := by
  induction rows generalizing m with
  | nil => simp
  | cons row rows ih =>
    simp only [List.foldl_cons, List.map_cons, List.sum_cons]
    rw [ih _, cntGet_foldRow row m p hp]
    omega

theorem usageGet_cons (r : String) (x : ℚ) (m : List (String × ℚ))
    (p : String) :
    usageGet ((r, x) :: m) p = if r == p then x else usageGet m p := by
  by_cases h : (r == p) = true <;> simp [usageGet, h]

theorem usageGet_map_div (m : List (String × ℕ)) (p : String) (t : ℚ) :
    usageGet (m.map fun e => (e.1, (e.2 : ℚ) / t)) p =
      (cntGet m p : ℚ) / t := by
  induction m with
  | nil => simp [usageGet, cntGet]
  | cons e m ih =>
    obtain ⟨r, c⟩ := e
    rw [List.map_cons]
    dsimp only
    rw [usageGet_cons, cntGet_cons]
    by_cases h : (r == p) = true
    · simp [h]
    · simp [h, ih]

/-- C5 counterexample: a player occupying two roster slots of the single
pool row is counted once per cell, so its usage is 2 — not the
1-row-in-1 fraction 1 — and exceeds 1. -/
theorem computePoolUsage_rowCount_counterexample :
    computePoolUsage [["A", "A"]] = [("A", (2 : ℚ))] ∧
      usageGet (computePoolUsage [["A", "A"]]) "A" ≠
        ((List.countP (fun r => r.contains "A") [["A", "A"]] : ℕ) : ℚ) /
          (([["A", "A"]] : List (List String)).length : ℚ) ∧
      ¬(usageGet (computePoolUsage [["A", "A"]]) "A" ≤ 1) := by
  with_unfolding_all decide

/-- C5 amended: for a non-empty pool and a non-blank player id,
`compute_pool_usage` reports the number of roster-slot cells holding
that id across all rows, divided by the row count; a player in two
slots of one row contributes that row twice, so values may exceed 1.
Blank cells still contribute nothing. -/
theorem computePoolUsage_cellFrequency (rows : List (List String))
    (pid : String) (hrows : rows ≠ []) (hpid : pid ≠ "") :
    usageGet (computePoolUsage rows) pid =
      (((rows.map fun r => r.countP fun c => c == pid).sum : ℕ) : ℚ) /
        (rows.length : ℚ) := by
  unfold computePoolUsage
  rw [if_neg (by simpa using hrows)]
  rw [usageGet_map_div, cntGet_foldRows rows [] pid hpid]
  simp [cntGet]

theorem computePoolUsage_cellFrequency_witness :
    ([["A", ""], ["B", "A"]] : List (List String)) ≠ [] ∧
      ("A" : String) ≠ "" ∧
      usageGet (computePoolUsage [["A", ""], ["B", "A"]]) "A" =
        ((([["A", ""], ["B", "A"]].map
            fun r => r.countP fun c => c == "A").sum : ℕ) : ℚ) /
          (([["A", ""], ["B", "A"]] : List (List String)).length : ℚ) :=
  ⟨by decide, by decide,
    computePoolUsage_cellFrequency [["A", ""], ["B", "A"]] "A" (by decide)
      (by decide)⟩

/-- C6 counterexample: on the empty pool (`total_rows == 0`)
`compute_pool_usage` returns the empty usage dict — a normal result —
rather than failing; no `EmptyPoolError` exists anywhere in the code. -/
theorem computePoolUsage_empty_counterexample :
    computePoolUsage [] = [] := rfl

/-- C6 amended: on a pool with zero rows `compute_pool_usage` returns
the empty usage map (every lookup yields 0) instead of raising; the
empty-pool failure the spec describes is raised later by the pipeline
entry point, not here. -/
theorem computePoolUsage_empty_amended (rows : List (List String))
    (h : rows.length = 0) :
    computePoolUsage rows = [] ∧
      ∀ pid, usageGet (computePoolUsage rows) pid = 0 := by
  rw [List.length_eq_zero] at h
  subst h
  exact ⟨rfl, fun pid => rfl⟩

theorem computePoolUsage_empty_amended_witness :
    ([] : List (List String)).length = 0 ∧
      computePoolUsage [] = [] ∧
      ∀ pid, usageGet (computePoolUsage []) pid = 0 :=
  ⟨rfl, (computePoolUsage_empty_amended [] rfl).1,
    (computePoolUsage_empty_amended [] rfl).2⟩

/-- C7 counterexample: at `values = [0, 1e-12]` the spread `hi - lo`
equals `1e-12`, so the claim's `hi - lo ≥ 1e-12` branch promises the
scaled list `[0, 1]`, but the code's `hi <= lo + 1e-12` guard fires and
`normalize` returns `[0, 0]`. -/
theorem normalize_boundary_counterexample :
    (0 : ℚ) < 1 / 10 ^ 12 ∧
      ¬((1 : ℚ) / 10 ^ 12 - 0 < 1 / 10 ^ 12) ∧
      normalize [0, 1 / 10 ^ 12] = [0, 0] ∧
      normalize [0, 1 / 10 ^ 12] ≠ [0, 1] := by
  with_unfolding_all decide

/-- C7 amended: for every non-empty list with `lo = min(values)` and
`hi = max(values)`, `normalize` returns all zeros whenever
`hi ≤ lo + 1e-12` (the boundary is inclusive, not the claim's strict
`hi - lo < 1e-12`) and the min–max scaled list `[(v-lo)/(hi-lo)]`
whenever `lo + 1e-12 < hi`; in particular
`normalize [v,v,v] = [0,0,0]` for every `v`, and `normalize [a,b]` is
`[0,1]` when `a + 1e-12 < b` but `[0,0]` when `a ≤ b ≤ a + 1e-12`. -/
theorem normalize_spec_amended (values : List ℚ) (v a b : ℚ) :
    (values ≠ [] → listMax values ≤ listMin values + 1 / 10 ^ 12 →
      normalize values = values.map fun _ => 0) ∧
      (values ≠ [] → listMin values + 1 / 10 ^ 12 < listMax values →
        normalize values = values.map fun x =>
          (x - listMin values) / (listMax values - listMin values)) ∧
      normalize [v, v, v] = [0, 0, 0] ∧
      (a + 1 / 10 ^ 12 < b → normalize [a, b] = [0, 1]) ∧
      (a ≤ b → b ≤ a + 1 / 10 ^ 12 → normalize [a, b] = [0, 0]) := by
  refine ⟨?_, ?_, ?_, ?_, ?_⟩
  · intro h1 h2
    unfold normalize
    rw [if_neg h1]
    dsimp only
    rw [if_pos h2]
  · intro h1 h2
    unfold normalize
    rw [if_neg h1]
    dsimp only
    rw [if_neg (by linarith)]
  · have h1 : listMin [v, v, v] = v := by simp [listMin]
    have h2 : listMax [v, v, v] = v := by simp [listMax]
    unfold normalize
    rw [if_neg (by simp), h1, h2, if_pos (by linarith)]
    rfl
  · intro h
    have hab : a < b := by
      have : (0 : ℚ) < 1 / 10 ^ 12 := by norm_num
      linarith
    have h1 : listMin [a, b] = a := by
      simp [listMin, min_eq_left hab.le]
    have h2 : listMax [a, b] = b := by
      simp [listMax, max_eq_right hab.le]
    unfold normalize
    rw [if_neg (by simp), h1, h2, if_neg (by linarith)]
    have hne : b - a ≠ 0 := sub_ne_zero.2 (ne_of_gt hab)
    simp [sub_self, zero_div, div_self hne]
  · intro hab h
    have h1 : listMin [a, b] = a := by
      simp [listMin, min_eq_left hab]
    have h2 : listMax [a, b] = b := by
      simp [listMax, max_eq_right hab]
    unfold normalize
    rw [if_neg (by simp), h1, h2, if_pos (by linarith)]
    rfl

theorem normalize_spec_amended_witness :
    (([3, 3] : List ℚ) ≠ [] ∧
      listMax [3, 3] ≤ listMin [3, 3] + 1 / 10 ^ 12 ∧
      normalize [3, 3] = [0, 0]) ∧
      (([0, 5, 10] : List ℚ) ≠ [] ∧
        listMin [0, 5, 10] + 1 / 10 ^ 12 < listMax [0, 5, 10] ∧
        normalize [0, 5, 10] = [0, 1 / 2, 1]) ∧
      normalize [5, 5, 5] = [0, 0, 0] ∧
      ((0 : ℚ) + 1 / 10 ^ 12 < 1 ∧ normalize [0, 1] = [0, 1]) ∧
      ((0 : ℚ) ≤ 1 / 10 ^ 12 ∧ (1 : ℚ) / 10 ^ 12 ≤ 0 + 1 / 10 ^ 12 ∧
        normalize [0, 1 / 10 ^ 12] = [0, 0]) :=
  ⟨⟨by simp, by norm_num [listMin, listMax],
      (normalize_spec_amended [3, 3] 5 0 1).1 (by simp)
        (by norm_num [listMin, listMax])⟩,
    ⟨by simp, by norm_num [listMin, listMax], by
      rw [(normalize_spec_amended [0, 5, 10] 5 0 1).2.1 (by simp)
        (by norm_num [listMin, listMax])]
      norm_num [listMin, listMax]⟩,
    (normalize_spec_amended [3, 3] 5 0 1).2.2.1,
    ⟨by norm_num, (normalize_spec_amended [3, 3] 5 0 1).2.2.2.1
      (by norm_num)⟩,
    ⟨by norm_num, by norm_num,
      (normalize_spec_amended [3, 3] 5 0 (1 / 10 ^ 12)).2.2.2.2
        (by norm_num) (by norm_num)⟩⟩

/-- A two-player demo record used by the concrete selection runs. -/
def demoRec : LineupRecord :=
  { idx := 0
    salary := 0
    playersId := ["A", "B"]
    projSum := 0
    uniqLogsum := 0
    chalkSum := 0
    corrScore := 0
    extraScore := 0 }

/-- C4 counterexample: with `cap_pct = 10`, `n_target = 3` the floor is
0, but the code clamps `cap_count = max(1, 0) = 1`, so on a one-record
pool `greedy_select` still picks a lineup: diagnostics report
`picked = 1`, `target = 3` — not `picked = 0`. -/
theorem greedySelect_capZero_counterexample :
    ⌊(10 : ℚ) / 100 * ((3 : ℕ) : ℚ) + 1 / 10 ^ 9⌋ = 0 ∧
      (greedySelect 0 [demoRec] ⟨1, 1, 1, 1⟩ 3 10 1 2 0 5 1
        (some 0)).2.2.picked = 1 ∧
      (greedySelect 0 [demoRec] ⟨1, 1, 1, 1⟩ 3 10 1 2 0 5 1
        (some 0)).2.2.target = 3 := by
  have h := greedySelect_eq_loopF 0 [demoRec] ⟨1, 1, 1, 1⟩ 3 10 1 2 0 5 1
    (some 0) 8 (by with_unfolding_all decide)
  refine ⟨by with_unfolding_all decide, ?_, ?_⟩ <;> rw [h] <;>
    with_unfolding_all decide

/-- C4 amended: when `floor(cap_pct/100 × n_target + 1e-9) ≤ 0`,
`cap_count` is clamped to 1 by the `max(1, ·)`; the selector runs with
cap 1 and may pick lineups, and the diagnostics report
`target = n_target` and `picked` equal to the number actually selected,
which is at most `n_target`. -/
theorem greedySelect_capZero_amended (g : ℕ) (records : List LineupRecord)
    (weights : ScoreWeights) (nTarget : ℕ) (capPct : ℚ) (maxRepeatInit : ℤ)
    (maxRepeatLimit : ℤ) (breadthPenalty : ℚ) (selectionWindow : ℤ)
    (stalledThreshold : ℤ) (seed : Option ℕ)
    (h : ⌊capPct / 100 * (nTarget : ℚ) + 1 / 10 ^ 9⌋ ≤ 0) :
    (greedySelect g records weights nTarget capPct maxRepeatInit
        maxRepeatLimit breadthPenalty selectionWindow stalledThreshold
        seed).2.2.capCount = 1 ∧
      (greedySelect g records weights nTarget capPct maxRepeatInit
        maxRepeatLimit breadthPenalty selectionWindow stalledThreshold
        seed).2.2.target = nTarget ∧
      (greedySelect g records weights nTarget capPct maxRepeatInit
          maxRepeatLimit breadthPenalty selectionWindow stalledThreshold
          seed).2.2.picked =
        (greedySelect g records weights nTarget capPct maxRepeatInit
          maxRepeatLimit breadthPenalty selectionWindow stalledThreshold
          seed).1.length ∧
      (greedySelect g records weights nTarget capPct maxRepeatInit
        maxRepeatLimit breadthPenalty selectionWindow stalledThreshold
        seed).1.length ≤ nTarget := by
  refine ⟨?_, rfl, rfl,
    (greedySelect_selInv g records weights nTarget capPct maxRepeatInit
      maxRepeatLimit breadthPenalty selectionWindow stalledThreshold
      seed).length_le⟩
  show capCountOf capPct nTarget = 1
  unfold capCountOf
  omega

theorem greedySelect_capZero_amended_witness :
    ⌊(10 : ℚ) / 100 * ((3 : ℕ) : ℚ) + 1 / 10 ^ 9⌋ ≤ 0 ∧
      (greedySelect 0 [demoRec] ⟨1, 1, 1, 1⟩ 3 10 1 2 0 5 1
        (some 0)).2.2.capCount = 1 ∧
      (greedySelect 0 [demoRec] ⟨1, 1, 1, 1⟩ 3 10 1 2 0 5 1
        (some 0)).2.2.target = 3 ∧
      (greedySelect 0 [demoRec] ⟨1, 1, 1, 1⟩ 3 10 1 2 0 5 1
          (some 0)).2.2.picked =
        (greedySelect 0 [demoRec] ⟨1, 1, 1, 1⟩ 3 10 1 2 0 5 1
          (some 0)).1.length ∧
      (greedySelect 0 [demoRec] ⟨1, 1, 1, 1⟩ 3 10 1 2 0 5 1
        (some 0)).1.length ≤ 3 :=
  ⟨by with_unfolding_all decide,
    greedySelect_capZero_amended 0 [demoRec] ⟨1, 1, 1, 1⟩ 3 10 1 2 0 5 1
      (some 0) (by with_unfolding_all decide)⟩

/-- A concrete loop configuration whose stall threshold is 0. -/
def stallDemoCfg : LoopCfg :=
  { records := [demoRec]
    lookup := fun _ => 0
    order := [0]
    nTarget := 2
    capCount := 1
    maxRepeatLimit := 3
    breadthPenalty := 0
    window := 1
    stalledThreshold := 0 }

/-- The same configuration with a positive stall threshold. -/
def stallDemoCfgPos : LoopCfg :=
  { stallDemoCfg with stalledThreshold := 1 }

/-- A concrete state in which the only candidate fails the caps (its
players are already at the cap and its player set is already seen). -/
def stallDemoSt : SelState :=
  { selected := [{ toLineupRecord := demoRec, score := 0 }]
    counts := fun x => if x = "A" then 1 else if x = "B" then 1 else 0
    seen := [["A", "B"]]
    maxRepeat := 1
    relaxations := 0
    pointer := 0
    stalled := 0 }

/-- C8 counterexample: run `greedy_select` with `stalled_threshold = 0`
on a one-record pool (target 3, cap 10%, overlap 1, limit 2).  After
the first iteration selects the record, the second iteration stalls —
no candidate passes — and the claim's relaxation conditions hold there
(incremented stall counter `1 ≥ 0`, threshold `1 <` limit `2`), yet the
code leaves the threshold unchanged and advances the pointer by the
window, because relaxation additionally requires
`stalled_threshold > 0`; the completed run reports
`repeat_relaxations = 0` and `max_repeat_final = 1 = max_repeat_start`
where the claim's rule would have relaxed to 2. -/
theorem stall_zeroThreshold_counterexample :
    (let cfg := selCfg 0 [demoRec] ⟨1, 1, 1, 1⟩ 3 10 2 0 5 0 (some 0)
     let st1 := loopF cfg 1 (initSelState 1)
     (st1.selected.length < cfg.nTarget ∧
        st1.pointer < cfg.order.length) ∧
       pickBest cfg st1 = none ∧
       ((st1.stalled + 1 : ℕ) : ℤ) ≥ cfg.stalledThreshold ∧
       st1.maxRepeat < cfg.maxRepeatLimit ∧
       (stallUpdate cfg st1).stalled = st1.stalled + 1 ∧
       (stallUpdate cfg st1).maxRepeat = st1.maxRepeat ∧
       (stallUpdate cfg st1).pointer = st1.pointer + cfg.window) ∧
      (greedySelect 0 [demoRec] ⟨1, 1, 1, 1⟩ 3 10 1 2 0 5 0
        (some 0)).2.2.repeatRelaxations = 0 ∧
      (greedySelect 0 [demoRec] ⟨1, 1, 1, 1⟩ 3 10 1 2 0 5 0
        (some 0)).2.2.maxRepeatFinal = 1 ∧
      (greedySelect 0 [demoRec] ⟨1, 1, 1, 1⟩ 3 10 1 2 0 5 0
        (some 0)).2.2.maxRepeatStart = 1 := by
  have h := greedySelect_eq_loopF 0 [demoRec] ⟨1, 1, 1, 1⟩ 3 10 1 2 0 5 0
    (some 0) 8 (by with_unfolding_all decide)
  refine ⟨by with_unfolding_all decide, ?_, ?_, ?_⟩ <;> rw [h] <;>
    with_unfolding_all decide

/-- C8 amended: when no candidate in the window passes, the loop
continues from the stall update of the state, and the stall update
increments the stall counter then relaxes the overlap threshold by
exactly 1 (resetting the counter, keeping the pointer) only when the
stall threshold is positive, reached by the incremented counter, and
the overlap threshold is below its limit; in every other case —
including `stalled_threshold = 0` — it advances the pointer by exactly
the window size and keeps the threshold. -/
theorem stall_step_amended (cfg : LoopCfg)
    (hw : 0 < cfg.window ∨ cfg.order.length = 0) (st : SelState) :
    (st.selected.length < cfg.nTarget → st.pointer < cfg.order.length →
      pickBest cfg st = none →
      loop cfg hw st = loop cfg hw (stallUpdate cfg st)) ∧
    (0 < cfg.stalledThreshold →
      cfg.stalledThreshold ≤ ((st.stalled + 1 : ℕ) : ℤ) →
      st.maxRepeat < cfg.maxRepeatLimit →
      (stallUpdate cfg st).maxRepeat = st.maxRepeat + 1 ∧
        (stallUpdate cfg st).stalled = 0 ∧
        (stallUpdate cfg st).pointer = st.pointer ∧
        (stallUpdate cfg st).relaxations = st.relaxations + 1 ∧
        (stallUpdate cfg st).selected = st.selected) ∧
    (¬(0 < cfg.stalledThreshold ∧
        cfg.stalledThreshold ≤ ((st.stalled + 1 : ℕ) : ℤ) ∧
        st.maxRepeat < cfg.maxRepeatLimit) →
      (stallUpdate cfg st).pointer = st.pointer + cfg.window ∧
        (stallUpdate cfg st).maxRepeat = st.maxRepeat ∧
        (stallUpdate cfg st).stalled = st.stalled + 1 ∧
        (stallUpdate cfg st).relaxations = st.relaxations ∧
        (stallUpdate cfg st).selected = st.selected) := by
  refine ⟨?_, ?_, ?_⟩
  · intro h1 h2 hpb
    conv_lhs => rw [loop.eq_def]
    rw [dif_pos ⟨h1, h2⟩, hpb]
  · intro h1 h2 h3
    simp only [stallUpdate]
    rw [if_pos ⟨h1, h2, h3⟩]
    exact ⟨rfl, rfl, rfl, rfl, rfl⟩
  · intro h
    simp only [stallUpdate]
    rw [if_neg fun hc => h ⟨hc.1, hc.2.1, hc.2.2⟩]
    exact ⟨rfl, rfl, rfl, rfl, rfl⟩

theorem stall_step_amended_witness :
    (loop stallDemoCfg (Or.inl (by decide)) stallDemoSt =
      loop stallDemoCfg (Or.inl (by decide))
        (stallUpdate stallDemoCfg stallDemoSt)) ∧
      ((stallUpdate stallDemoCfgPos stallDemoSt).maxRepeat =
        stallDemoSt.maxRepeat + 1 ∧
        (stallUpdate stallDemoCfgPos stallDemoSt).pointer =
          stallDemoSt.pointer) ∧
      ((stallUpdate stallDemoCfg stallDemoSt).pointer =
        stallDemoSt.pointer + stallDemoCfg.window ∧
        (stallUpdate stallDemoCfg stallDemoSt).maxRepeat =
          stallDemoSt.maxRepeat) :=
  ⟨(stall_step_amended stallDemoCfg (Or.inl (by decide)) stallDemoSt).1
      (by decide) (by decide) (by decide),
    ⟨((stall_step_amended stallDemoCfgPos (Or.inl (by decide))
        stallDemoSt).2.1 (by decide) (by decide) (by decide)).1,
      ((stall_step_amended stallDemoCfgPos (Or.inl (by decide))
        stallDemoSt).2.1 (by decide) (by decide) (by decide)).2.2.1⟩,
    ⟨((stall_step_amended stallDemoCfg (Or.inl (by decide))
        stallDemoSt).2.2 (by decide)).1,
      ((stall_step_amended stallDemoCfg (Or.inl (by decide))
        stallDemoSt).2.2 (by decide)).2.1⟩⟩

end MMEPicker
